import Mathlib

open Matrix

/-! Verification of the zero-order robust MPC solver (`zoro_acados.py`,
`zoro_acados_utils.py`) against its specification.

The Python code is shallowly embedded, with the float scalars abstracted to an
arbitrary commutative ring `K` (all embedded operations are ring operations;
no division occurs), so every theorem applies in particular to `ℚ` and `ℝ`;
concrete witnesses and counterexamples instantiate `K := ℤ`.

* `sym_mat2vec` / `vec2sym_mat` embed the symmetric-matrix vector codec of
  `zoro_acados_utils.py` (numpy `triu_indices` order; `vec2sym_mat` performs
  the two bulk index assignments `mat[i,j] = vec` and `mat.T[i,j] = vec` as
  two sequential passes of single-entry writes).
* `P_propagation` embeds `P_propagation(P, A, B, W) = A @ P @ A.T + B @ W @ B.T`.
* `stageStep` / `stagesFold` / `iterStart` / `stateAt` embed the per-stage body
  of `ZoroAcados.solve` (lines 156-250): the linear-model composition, the
  delta computation from `P_bar_old_vec`, the covariance propagation, the
  snapshot rotation `P_bar_old_vec = P_bar_all_vec[stage+1]` taken *before*
  the slot is overwritten, and the constraint tightening.  External
  collaborators (OCP solver iterates, integrator sensitivities, the GP model,
  the compiled constraint Jacobian) are oracles in `ZoroExt`.
* `solveStep` / `runSolve` embed the outer-loop control flow of `solve`
  (lines 129, 256-286): per-iteration timing accumulation, the raise on a
  non-zero feedback status, the residual-based break, the post-loop
  statistics finalisation, and the `UnboundLocalError` that reading the loop
  variable after an empty `range(n_iter_max)` produces (`nameError`).
* `init_solve_stats` / `get_solve_stats` embed the statistics bookkeeping.
-/

/-- Length of the flattened upper triangle: `int((nx+1)*nx/2)` (line 192). -/
def vecLen (n : ℕ) : ℕ := n * (n + 1) / 2

/-- The index pairs produced by `np.triu_indices(nx)`: all `(i, j)` with
`i ≤ j`, ordered row-major (row `i` ascending, then column `j` ascending). -/
def triuPairs (n : ℕ) : List (Fin n × Fin n) :=
  ((List.finRange n).product (List.finRange n)).filter (fun p => p.1 ≤ p.2)

/-- A single entry write `m[a, b] = v` on a matrix. -/
def updateEntry {K : Type} {n : ℕ} (m : Matrix (Fin n) (Fin n) K) (a b : Fin n)
    (v : K) : Matrix (Fin n) (Fin n) K :=
  Matrix.of fun x y => if x = a ∧ y = b then v else m x y

/-- Sequential entry writes `m[a e, b e] = v e` for every element of `l`. -/
def updFold {K α : Type} {n : ℕ} (a b : α → Fin n) (v : α → K) (l : List α)
    (m0 : Matrix (Fin n) (Fin n) K) : Matrix (Fin n) (Fin n) K :=
  l.foldl (fun m e => updateEntry m (a e) (b e) (v e)) m0

/-- `sym_mat2vec(mat)` from `zoro_acados_utils.py` (lines 170-180): the upper
triangular entries `mat[i, j]`, `i ≤ j`, in `triu_indices` order. -/
def sym_mat2vec {K : Type} {n : ℕ} (M : Matrix (Fin n) (Fin n) K) : List K :=
  (triuPairs n).map fun p => M p.1 p.2

/-- `vec2sym_mat(vec, nx)` from `zoro_acados_utils.py` (lines 183-198): start
from the zero matrix, write `mat[i, j] = vec` over the upper-triangular index
pairs, then `mat.T[i, j] = vec` (i.e. write entry `(j, i)`) over the same
pairs. -/
def vec2sym_mat {K : Type} [Zero K] (vec : List K) (n : ℕ) :
    Matrix (Fin n) (Fin n) K :=
  updFold (fun e => e.1.2) (fun e => e.1.1) (fun e => e.2) ((triuPairs n).zip vec)
    (updFold (fun e => e.1.1) (fun e => e.1.2) (fun e => e.2) ((triuPairs n).zip vec)
      (0 : Matrix (Fin n) (Fin n) K))

/-- `P_propagation(P, A, B, W)` from `zoro_acados_utils.py` (lines 321-323):
`A @ P @ A.T + B @ W @ B.T`. -/
def P_propagation {K : Type} [CommRing K] {nx nw : ℕ}
    (P A : Matrix (Fin nx) (Fin nx) K) (B : Matrix (Fin nx) (Fin nw) K)
    (W : Matrix (Fin nw) (Fin nw) K) : Matrix (Fin nx) (Fin nx) K :=
  A * P * Aᵀ + B * W * Bᵀ

/-- Dot product of a matrix row (a function of the column index) with a
flat vector given as a list, columns counted from `c`. -/
def dotFrom {K : Type} [CommRing K] (row : ℕ → K) : ℕ → List K → K
  | _, [] => 0
  | c, x :: xs => row c * x + dotFrom row (c + 1) xs

/-- `row · v`: dot product of a matrix row with a vector, as in
`htj_sig @ dP_bar_vec` (line 229). -/
def dotL {K : Type} [CommRing K] (row : ℕ → K) (v : List K) : K := dotFrom row 0 v

/-- Constructor data of `ZoroAcados.__init__` used by `solve`: the noise
injection matrix `B`, `Sigma_x0`, `Sigma_W`, the nominal lower bound
`ocp.constraints.lh`, and the horizon `N`. -/
structure ZoroConfig (K : Type) (nx nu nw nh : ℕ) where
  B : Matrix (Fin nx) (Fin nw) K
  Sigma_x0 : Matrix (Fin nx) (Fin nx) K
  Sigma_W : Matrix (Fin nw) (Fin nw) K
  lh : Fin nh → K
  N : ℕ

/-- The external collaborators of `solve`, as oracles indexed by outer
iteration and stage: the OCP solver's primal iterate (`get(stage, "x"/"u")`),
the integrator sensitivities (`Sx`, `Su`, `x`), the GP model outputs, and the
compiled constraint-covariance Jacobian `h_tightening_jac_sig_fun`. -/
structure ZoroExt (K : Type) (nx nu nw nh : ℕ) where
  x_hat : ℕ → ℕ → Fin nx → K
  u_hat : ℕ → ℕ → Fin nu → K
  A_nom : ℕ → ℕ → Matrix (Fin nx) (Fin nx) K
  B_nom : ℕ → ℕ → Matrix (Fin nx) (Fin nu) K
  x_nom : ℕ → ℕ → Fin nx → K
  hasGp : Bool
  gp_mean : ℕ → ℕ → Fin nw → K
  gp_mean_dy : ℕ → ℕ → Fin nw → ℕ → K
  gp_var : ℕ → ℕ → Fin nw → K
  htj : (Fin nx → K) → List K → Fin nh → ℕ → K

/-- The covariance state of a `ZoroAcados` object: `P_bar_all`,
`P_bar_all_vec` (slot `j` holds `some` value once assigned) and
`P_bar_old_vec`. -/
structure ZoroState (K : Type) (nx : ℕ) where
  P_bar_all : ℕ → Option (Matrix (Fin nx) (Fin nx) K)
  P_bar_all_vec : ℕ → Option (List K)
  P_bar_old_vec : Option (List K)

/-- Per-stage observable outputs of the loop body: the snapshot in use, the
delta, the composed linear model, the parameter covariance vector, the
tightening and the lower bound written to the solver. -/
structure StageRec (K : Type) (nx nu nh : ℕ) where
  snapshot : Option (List K)
  dP : List K
  A_total : Matrix (Fin nx) (Fin nx) K
  B_total : Matrix (Fin nx) (Fin nu) K
  f_hat : Fin nx → K
  pvec_param : List K
  tightening : Fin nh → K
  lh_set : Fin nh → K

/-- `self.mean[stage, :]`: zero-initialised, overwritten from the GP only when
`has_gp_model` (lines 63, 149-150). -/
def meanAt {K : Type} [CommRing K] {nx nu nw nh : ℕ} (ext : ZoroExt K nx nu nw nh)
    (i k : ℕ) : Fin nw → K :=
  if ext.hasGp then ext.gp_mean i k else 0

/-- `self.mean_dy[:, stage, :]`: zero-initialised, overwritten from the GP only
when `has_gp_model` (lines 64, 149-150). -/
def meanDyFull {K : Type} [CommRing K] {nx nu nw nh : ℕ}
    (ext : ZoroExt K nx nu nw nh) (i k : ℕ) : Fin nw → ℕ → K :=
  if ext.hasGp then ext.gp_mean_dy i k else fun _ _ => 0

/-- `self.var[stage, :]`: zero-initialised, overwritten from the GP only when
`has_gp_model` (lines 65, 149-150). -/
def varAt {K : Type} [CommRing K] {nx nu nw nh : ℕ} (ext : ZoroExt K nx nu nw nh)
    (i k : ℕ) : Fin nw → K :=
  if ext.hasGp then ext.gp_var i k else 0

/-- `A_total = A_nom + self.B @ self.mean_dy[:, stage, 0:nx]` (line 178). -/
def A_totalAt {K : Type} [CommRing K] {nx nu nw nh : ℕ}
    (cfg : ZoroConfig K nx nu nw nh) (ext : ZoroExt K nx nu nw nh) (i k : ℕ) :
    Matrix (Fin nx) (Fin nx) K :=
  ext.A_nom i k + cfg.B * Matrix.of (fun w x => meanDyFull ext i k w x.val)

/-- `B_total = B_nom + self.B @ self.mean_dy[:, stage, nx:nx+nu]` (line 179). -/
def B_totalAt {K : Type} [CommRing K] {nx nu nw nh : ℕ}
    (cfg : ZoroConfig K nx nu nw nh) (ext : ZoroExt K nx nu nw nh) (i k : ℕ) :
    Matrix (Fin nx) (Fin nu) K :=
  ext.B_nom i k + cfg.B * Matrix.of (fun w u => meanDyFull ext i k w (nx + u.val))

/-- `f_hat = x_nom + B @ mean[stage] - A_total @ x_hat - B_total @ u_hat`
(lines 181-182). -/
def f_hatAt {K : Type} [CommRing K] {nx nu nw nh : ℕ}
    (cfg : ZoroConfig K nx nu nw nh) (ext : ZoroExt K nx nu nw nh) (i k : ℕ) :
    Fin nx → K :=
  ext.x_nom i k + cfg.B.mulVec (meanAt ext i k)
    - (A_totalAt cfg ext i k).mulVec (ext.x_hat i k)
    - (B_totalAt cfg ext i k).mulVec (ext.u_hat i k)

/-- `dP_bar_vec` (lines 190-194): the zero vector when `P_bar_old_vec is None`,
otherwise `P_bar_all_vec[stage] - P_bar_old_vec`. -/
def dPAt {K : Type} [CommRing K] {nx : ℕ} (st : ZoroState K nx) (k : ℕ) : List K :=
  st.P_bar_old_vec.elim (List.replicate (vecLen nx) 0)
    (fun old => List.zipWith (fun a b => a - b) ((st.P_bar_all_vec k).getD []) old)

/-- The covariance written to slot `stage+1` (line 196):
`P_propagation(P_bar_all[stage], A_total, B, Sigma_W + diag(var[stage]))`. -/
def nextP {K : Type} [CommRing K] {nx nu nw nh : ℕ}
    (cfg : ZoroConfig K nx nu nw nh) (ext : ZoroExt K nx nu nw nh) (i k : ℕ)
    (st : ZoroState K nx) : Matrix (Fin nx) (Fin nx) K :=
  P_propagation ((st.P_bar_all k).getD 0) (A_totalAt cfg ext i k) cfg.B
    (cfg.Sigma_W + Matrix.diagonal (varAt ext i k))

/-- One pass of the stage loop body of `solve` (lines 156-250) at outer
iteration `i`, stage `k`: computes `dP_bar_vec`, propagates the covariance
into slot `k+1`, rotates `P_bar_old_vec := P_bar_all_vec[k+1]` (the value
*before* the slot is overwritten, line 198 precedes line 199), and records the
linear model, the tightening and the written lower bound. -/
def stageStep {K : Type} [CommRing K] {nx nu nw nh : ℕ}
    (cfg : ZoroConfig K nx nu nw nh) (ext : ZoroExt K nx nu nw nh) (i k : ℕ)
    (st : ZoroState K nx) : ZoroState K nx × StageRec K nx nu nh :=
  let dP := dPAt st k
  let Pn := nextP cfg ext i k st
  let pvk := (st.P_bar_all_vec k).getD []
  let tight : Fin nh → K := fun r => dotL (ext.htj (ext.x_hat i k) pvk r) dP
  ( { P_bar_all := Function.update st.P_bar_all (k + 1) (some Pn)
      P_bar_all_vec := Function.update st.P_bar_all_vec (k + 1) (some (sym_mat2vec Pn))
      P_bar_old_vec := st.P_bar_all_vec (k + 1) },
    { snapshot := st.P_bar_old_vec
      dP := dP
      A_total := A_totalAt cfg ext i k
      B_total := B_totalAt cfg ext i k
      f_hat := f_hatAt cfg ext i k
      pvec_param := pvk
      tightening := tight
      lh_set := fun r => cfg.lh r + tight r } )

/-- Fold of the first `k` stage bodies of outer iteration `i`, starting from
state `st` (the stage loop `for stage in range(N)`, processed in increasing
order). -/
def stagesFold {K : Type} [CommRing K] {nx nu nw nh : ℕ}
    (cfg : ZoroConfig K nx nu nw nh) (ext : ZoroExt K nx nu nw nh) (i : ℕ)
    (st : ZoroState K nx) : ℕ → ZoroState K nx
  | 0 => st
  | k + 1 => (stageStep cfg ext i k (stagesFold cfg ext i st k)).1

/-- The covariance state at the start of outer iteration `i`, starting the
call from object state `s0`. -/
def iterStart {K : Type} [CommRing K] {nx nu nw nh : ℕ}
    (cfg : ZoroConfig K nx nu nw nh) (ext : ZoroExt K nx nu nw nh)
    (s0 : ZoroState K nx) : ℕ → ZoroState K nx
  | 0 => s0
  | i + 1 => stagesFold cfg ext i (iterStart cfg ext s0 i) cfg.N

/-- The covariance state just before stage `k` of outer iteration `i`. -/
def stateAt {K : Type} [CommRing K] {nx nu nw nh : ℕ}
    (cfg : ZoroConfig K nx nu nw nh) (ext : ZoroExt K nx nu nw nh)
    (s0 : ZoroState K nx) (i k : ℕ) : ZoroState K nx :=
  stagesFold cfg ext i (iterStart cfg ext s0 i) k

/-- The observable record of stage `k` of outer iteration `i`. -/
def traceAt {K : Type} [CommRing K] {nx nu nw nh : ℕ}
    (cfg : ZoroConfig K nx nu nw nh) (ext : ZoroExt K nx nu nw nh)
    (s0 : ZoroState K nx) (i k : ℕ) : StageRec K nx nu nh :=
  (stageStep cfg ext i k (stateAt cfg ext s0 i k)).2

/-- The covariance state established by `__init__` (lines 58-62):
`P_bar_all[0] = Sigma_x0`, `P_bar_all_vec[0] = sym_mat2vec(Sigma_x0)`, every
other slot `None`, and `P_bar_old_vec = None`. -/
def initState {K : Type} [CommRing K] {nx nu nw nh : ℕ}
    (cfg : ZoroConfig K nx nu nw nh) : ZoroState K nx :=
  { P_bar_all := fun j => if j = 0 then some cfg.Sigma_x0 else none
    P_bar_all_vec := fun j => if j = 0 then some (sym_mat2vec cfg.Sigma_x0) else none
    P_bar_old_vec := none }

/-- Outcome of a `solve` call: normal return with the final `n_iter`, the
explicit raise on a non-zero feedback status (line 280) carrying the status
and the iteration, or the `UnboundLocalError` from reading the loop variable
at line 285 when `range(n_iter_max)` was empty. -/
inductive SolveOutcome where
  | done : ℕ → SolveOutcome
  | raised : ℤ → ℕ → SolveOutcome
  | nameError : SolveOutcome
deriving DecidableEq

/-- The `solve_stats` dictionary: `n_iter`, `timings_total`, and the named
per-iteration timing arrays. -/
structure ZoroStats (K : Type) where
  n_iter : ℕ
  timings_total : K
  timings : List (String × List K)
deriving DecidableEq

/-- The timing keys of `solve_stats_default` (lines 95-116). -/
def timingKeys : List String :=
  ["build_lin_model", "query_nodes", "get_gp_sensitivities", "integrate_acados",
   "integrate_acados_python", "integrate_get", "integrate_set",
   "set_sensitivities", "set_sensitivities_reshape", "propagate_covar",
   "get_backoffs", "get_backoffs_htj_sig", "get_backoffs_htj_sig_matmul",
   "get_backoffs_add", "set_tightening", "phase_one", "check_termination",
   "solve_qp", "solve_qp_acados", "total"]

/-- `init_solve_stats(max_iter)` (lines 323-326): reset `n_iter` to 0 and
`timings_total` to 0.0, and give every timing key a fresh zero array of
length `max_iter`. -/
def init_solve_stats {K : Type} [Zero K] (max_iter : ℕ) : ZoroStats K :=
  { n_iter := 0
    timings_total := 0
    timings := timingKeys.map fun k => (k, List.replicate max_iter 0) }

/-- One iteration's timing accumulation: each key's array is written at
index `i`. -/
def accumTimings {K : Type} (st : ZoroStats K) (i : ℕ) (t : K) : ZoroStats K :=
  { st with timings := st.timings.map fun p => (p.1, p.2.set i t) }

/-- The outer loop of `solve` from iteration `i` with `r` iterations left
(lines 129, 256-286), threading `solve_stats`.  Each executed iteration
accumulates timings, then raises if the feedback status is non-zero, then
breaks when `max(residuals) < tol_nlp`.  After the loop, `n_iter := i + 1`
and `timings_total := T` are assigned; with an empty `range` the loop
variable is unbound and that read raises (`nameError`). -/
def solveStep {K : Type} [Zero K] [LinearOrder K] (status : ℕ → ℤ) (res : ℕ → K)
    (tol : K) (times : ℕ → K) (T : K) :
    ℕ → ℕ → ZoroStats K → ZoroStats K × SolveOutcome
  | i, 0, st =>
    if i = 0 then (st, SolveOutcome.nameError)
    else ({ st with n_iter := i, timings_total := T }, SolveOutcome.done i)
  | i, r + 1, st =>
    let st2 := accumTimings st i (times i)
    if status i ≠ 0 then (st2, SolveOutcome.raised (status i) i)
    else if res i < tol then
      ({ st2 with n_iter := i + 1, timings_total := T }, SolveOutcome.done (i + 1))
    else solveStep status res tol times T (i + 1) r st2

/-- A full `solve(tol_nlp, n_iter_max)` call's control flow and statistics:
`init_solve_stats(n_iter_max)` then the outer loop from iteration 0. -/
def runSolve {K : Type} [Zero K] [LinearOrder K] (status : ℕ → ℤ) (res : ℕ → K)
    (tol : K) (times : ℕ → K) (T : K) (n_iter_max : ℕ) :
    ZoroStats K × SolveOutcome :=
  solveStep status res tol times T 0 n_iter_max (init_solve_stats n_iter_max)

/-- The statistics part of `get_solve_stats` (lines 328-340): every timing
array is truncated to the first `n_iter` entries. -/
def get_solve_stats {K : Type} (st : ZoroStats K) : ZoroStats K :=
  { st with timings := st.timings.map fun p => (p.1, p.2.take st.n_iter) }

/-- Concrete instance used by counterexamples and witnesses: scalar system
(`nx = nu = nw = nh = 1`), horizon `N = 2`, `B = Sigma_x0 = Sigma_W = [[1]]`,
no residual model.  Then `P[0] = 1`, `P[1] = 2`, `P[2] = 3` in every outer
iteration. -/
def cfg1 : ZoroConfig ℤ 1 1 1 1 :=
  { B := Matrix.of fun _ _ => 1
    Sigma_x0 := Matrix.of fun _ _ => 1
    Sigma_W := Matrix.of fun _ _ => 1
    lh := fun _ => 0
    N := 2 }

/-- Oracles for the concrete instance: zero iterate, `A_nom = [[1]]`,
`B_nom = [[0]]`, no GP model, constraint Jacobian identically 1. -/
def ext1 : ZoroExt ℤ 1 1 1 1 :=
  { x_hat := fun _ _ _ => 0
    u_hat := fun _ _ _ => 0
    A_nom := fun _ _ => Matrix.of fun _ _ => 1
    B_nom := fun _ _ => Matrix.of fun _ _ => 0
    x_nom := fun _ _ _ => 0
    hasGp := false
    gp_mean := fun _ _ _ => 0
    gp_mean_dy := fun _ _ _ _ => 0
    gp_var := fun _ _ _ => 0
    htj := fun _ _ _ _ => 1 }

lemma mem_triuPairs {n : ℕ} {p : Fin n × Fin n} : p ∈ triuPairs n ↔ p.1 ≤ p.2 := by
  obtain ⟨a, b⟩ := p
  unfold triuPairs
  rw [List.mem_filter, List.pair_mem_product]
  simp [List.mem_finRange]

lemma nodup_triuPairs (n : ℕ) : (triuPairs n).Nodup :=
  ((List.nodup_finRange n).product (List.nodup_finRange n)).filter _

lemma updFold_eq_of_not_mem {K α : Type} {n : ℕ} (a b : α → Fin n) (v : α → K)
    (l : List α) (m0 : Matrix (Fin n) (Fin n) K) (x y : Fin n)
    (h : ∀ e ∈ l, ¬(a e = x ∧ b e = y)) : updFold a b v l m0 x y = m0 x y := by
  induction l generalizing m0 with
  | nil => rfl
  | cons hd tl ih =>
    have hstep : updFold a b v (hd :: tl) m0
        = updFold a b v tl (updateEntry m0 (a hd) (b hd) (v hd)) := rfl
    rw [hstep, ih _ (fun e he => h e (List.mem_cons_of_mem hd he))]
    unfold updateEntry
    simp only [Matrix.of_apply]
    rw [if_neg (fun hc => h hd (List.mem_cons_self hd tl) ⟨hc.1.symm, hc.2.symm⟩)]

lemma updFold_eq_of_mem {K α : Type} {n : ℕ} (a b : α → Fin n) (v : α → K)
    (l : List α) (m0 : Matrix (Fin n) (Fin n) K) (x y : Fin n) (e : α)
    (hnd : (l.map fun e2 => (a e2, b e2)).Nodup) (he : e ∈ l)
    (hx : a e = x) (hy : b e = y) : updFold a b v l m0 x y = v e := by
  induction l generalizing m0 with
  | nil => cases he
  | cons hd tl ih =>
    rw [List.map_cons, List.nodup_cons] at hnd
    have hstep : updFold a b v (hd :: tl) m0
        = updFold a b v tl (updateEntry m0 (a hd) (b hd) (v hd)) := rfl
    rcases List.mem_cons.mp he with rfl | htl
    · have hmiss : ∀ e2 ∈ tl, ¬(a e2 = x ∧ b e2 = y) := by
        intro e2 h2 hc
        have hkey : (a e, b e) = (a e2, b e2) := by rw [hx, hy, hc.1, hc.2]
        exact hnd.1 (hkey ▸ List.mem_map_of_mem _ h2)
      rw [hstep, updFold_eq_of_not_mem a b v tl _ x y hmiss]
      unfold updateEntry
      simp only [Matrix.of_apply]
      rw [if_pos ⟨hx.symm, hy.symm⟩]
    · rw [hstep]
      exact ih _ hnd.2 htl

lemma zip_sym_mat2vec {K : Type} {n : ℕ} (M : Matrix (Fin n) (Fin n) K) :
    (triuPairs n).zip (sym_mat2vec M)
      = (triuPairs n).map fun p => (p, M p.1 p.2) := by
  have h := List.zip_map' id (fun p : Fin n × Fin n => M p.1 p.2) (triuPairs n)
  simpa [sym_mat2vec] using h

/-- Claim C5 (confirmed): `vec2sym_mat(sym_mat2vec(M), n) = M` for every
symmetric `n × n` matrix `M` (both triangles are reconstructed from the
upper-triangular vector). -/
theorem c5_roundtrip {K : Type} [CommRing K] (n : ℕ) (M : Matrix (Fin n) (Fin n) K)
    (hM : Mᵀ = M) : vec2sym_mat (sym_mat2vec M) n = M := by
  have hsym : ∀ i j : Fin n, M j i = M i j := by
    intro i j
    rw [← Matrix.transpose_apply M i j, hM]
  have hnd1 : (((triuPairs n).map fun p => (p, M p.1 p.2)).map
      fun e => (e.1.1, e.1.2)).Nodup := by
    rw [List.map_map]
    have hcomp : ((fun e : (Fin n × Fin n) × K => (e.1.1, e.1.2))
        ∘ fun p : Fin n × Fin n => (p, M p.1 p.2)) = id := by
      funext p
      rfl
    rw [hcomp, List.map_id]
    exact nodup_triuPairs n
  have hnd2 : (((triuPairs n).map fun p => (p, M p.1 p.2)).map
      fun e => (e.1.2, e.1.1)).Nodup := by
    rw [List.map_map]
    have hcomp : ((fun e : (Fin n × Fin n) × K => (e.1.2, e.1.1))
        ∘ fun p : Fin n × Fin n => (p, M p.1 p.2))
        = fun p : Fin n × Fin n => (p.2, p.1) := by
      funext p
      rfl
    rw [hcomp]
    have hswap : Function.Injective fun p : Fin n × Fin n => (p.2, p.1) := by
      intro p q h
      rw [Prod.ext_iff] at h ⊢
      exact ⟨h.2, h.1⟩
    exact List.Nodup.map hswap (nodup_triuPairs n)
  ext x y
  unfold vec2sym_mat
  rw [zip_sym_mat2vec]
  by_cases hyx : y ≤ x
  · have he : ((⟨(y, x), M y x⟩ : (Fin n × Fin n) × K))
        ∈ (triuPairs n).map fun p => (p, M p.1 p.2) :=
      List.mem_map_of_mem _ (mem_triuPairs.mpr hyx)
    rw [updFold_eq_of_mem _ _ _ _ _ x y _ hnd2 he rfl rfl]
    exact hsym x y
  · have hx : x ≤ y := le_of_not_le hyx
    have hmiss : ∀ e ∈ (triuPairs n).map fun p => (p, M p.1 p.2),
        ¬(e.1.2 = x ∧ e.1.1 = y) := by
      intro e he hc
      obtain ⟨p, hp, rfl⟩ := List.mem_map.mp he
      exact hyx (hc.2 ▸ hc.1 ▸ mem_triuPairs.mp hp)
    rw [updFold_eq_of_not_mem _ _ _ _ _ x y hmiss]
    have he : ((⟨(x, y), M x y⟩ : (Fin n × Fin n) × K))
        ∈ (triuPairs n).map fun p => (p, M p.1 p.2) :=
      List.mem_map_of_mem _ (mem_triuPairs.mpr hx)
    rw [updFold_eq_of_mem _ _ _ _ _ x y _ hnd1 he rfl rfl]

/-- Claim C6 (confirmed): `P_propagation(P, A, B, W)` is exactly
`A·P·Aᵀ + B·W·Bᵀ` — a pure function of its arguments — and the result is
symmetric whenever `P` and `W` are. -/
theorem c6_propagation {K : Type} [CommRing K] {nx nw : ℕ}
    (P A : Matrix (Fin nx) (Fin nx) K) (B : Matrix (Fin nx) (Fin nw) K)
    (W : Matrix (Fin nw) (Fin nw) K) :
    P_propagation P A B W = A * P * Aᵀ + B * W * Bᵀ ∧
      (Pᵀ = P → Wᵀ = W → (P_propagation P A B W)ᵀ = P_propagation P A B W) := by
  refine ⟨rfl, fun hP hW => ?_⟩
  unfold P_propagation
  simp only [Matrix.transpose_add, Matrix.transpose_mul, Matrix.transpose_transpose,
    hP, hW, Matrix.mul_assoc]

lemma dotFrom_replicate_zero {K : Type} [CommRing K] (row : ℕ → K) :
    ∀ m c : ℕ, dotFrom row c (List.replicate m 0) = 0 := by
  intro m
  induction m with
  | zero => intro c; rfl
  | succ m ih =>
    intro c
    rw [List.replicate_succ]
    show row c * 0 + dotFrom row (c + 1) (List.replicate m 0) = 0
    rw [mul_zero, zero_add]
    exact ih (c + 1)

section StateLemmas

variable {K : Type} [CommRing K] {nx nu nw nh : ℕ}
variable (cfg : ZoroConfig K nx nu nw nh) (ext : ZoroExt K nx nu nw nh)
variable (s0 : ZoroState K nx)

lemma stateAt_zero (i : ℕ) : stateAt cfg ext s0 i 0 = iterStart cfg ext s0 i := rfl

lemma stateAt_succ (i k : ℕ) :
    stateAt cfg ext s0 i (k + 1) = (stageStep cfg ext i k (stateAt cfg ext s0 i k)).1 := rfl

lemma iterStart_succ (i : ℕ) :
    iterStart cfg ext s0 (i + 1) = stateAt cfg ext s0 i cfg.N := rfl

lemma stageStep_fst_mat (i k : ℕ) (st : ZoroState K nx) :
    ((stageStep cfg ext i k st).1).P_bar_all
      = Function.update st.P_bar_all (k + 1) (some (nextP cfg ext i k st)) := rfl

lemma stageStep_fst_vec (i k : ℕ) (st : ZoroState K nx) :
    ((stageStep cfg ext i k st).1).P_bar_all_vec
      = Function.update st.P_bar_all_vec (k + 1)
          (some (sym_mat2vec (nextP cfg ext i k st))) := rfl

lemma stageStep_fst_old (i k : ℕ) (st : ZoroState K nx) :
    ((stageStep cfg ext i k st).1).P_bar_old_vec = st.P_bar_all_vec (k + 1) := rfl

lemma traceAt_snapshot (i k : ℕ) :
    (traceAt cfg ext s0 i k).snapshot = (stateAt cfg ext s0 i k).P_bar_old_vec := rfl

lemma traceAt_dP (i k : ℕ) :
    (traceAt cfg ext s0 i k).dP = dPAt (stateAt cfg ext s0 i k) k := rfl

lemma stateAt_vec_untouched (i : ℕ) :
    ∀ k j : ℕ, k < j →
      (stateAt cfg ext s0 i k).P_bar_all_vec j = (iterStart cfg ext s0 i).P_bar_all_vec j := by
  intro k
  induction k with
  | zero => intro j _; rfl
  | succ k ih =>
    intro j hj
    rw [stateAt_succ, stageStep_fst_vec,
      Function.update_noteq (show j ≠ k + 1 by omega)]
    exact ih j (by omega)

lemma stateAt_vec_stable (i : ℕ) :
    ∀ k j : ℕ, j ≤ k →
      (stateAt cfg ext s0 i k).P_bar_all_vec j = (stateAt cfg ext s0 i j).P_bar_all_vec j := by
  intro k
  induction k with
  | zero =>
    intro j hj
    have hj0 : j = 0 := Nat.le_zero.mp hj
    subst hj0
    rfl
  | succ k ih =>
    intro j hj
    rcases Nat.lt_or_ge j (k + 1) with h | h
    · rw [stateAt_succ, stageStep_fst_vec,
        Function.update_noteq (show j ≠ k + 1 by omega)]
      exact ih j (by omega)
    · have hjk : j = k + 1 := by omega
      subst hjk
      rfl

lemma stateAt_vec_written (i k : ℕ) :
    (stateAt cfg ext s0 i (k + 1)).P_bar_all_vec (k + 1)
      = some (sym_mat2vec (nextP cfg ext i k (stateAt cfg ext s0 i k))) := by
  rw [stateAt_succ, stageStep_fst_vec]
  exact Function.update_same _ _ _

lemma stateAt_mat_stable (i : ℕ) :
    ∀ k j : ℕ, j ≤ k →
      (stateAt cfg ext s0 i k).P_bar_all j = (stateAt cfg ext s0 i j).P_bar_all j := by
  intro k
  induction k with
  | zero =>
    intro j hj
    have hj0 : j = 0 := Nat.le_zero.mp hj
    subst hj0
    rfl
  | succ k ih =>
    intro j hj
    rcases Nat.lt_or_ge j (k + 1) with h | h
    · rw [stateAt_succ, stageStep_fst_mat,
        Function.update_noteq (show j ≠ k + 1 by omega)]
      exact ih j (by omega)
    · have hjk : j = k + 1 := by omega
      subst hjk
      rfl

lemma stateAt_mat_written (i k : ℕ) :
    (stateAt cfg ext s0 i (k + 1)).P_bar_all (k + 1)
      = some (nextP cfg ext i k (stateAt cfg ext s0 i k)) := by
  rw [stateAt_succ, stageStep_fst_mat]
  exact Function.update_same _ _ _

lemma stagesFold_mat_zero (i : ℕ) :
    ∀ (k : ℕ) (st : ZoroState K nx),
      (stagesFold cfg ext i st k).P_bar_all 0 = st.P_bar_all 0 := by
  intro k
  induction k with
  | zero => intro st; rfl
  | succ k ih =>
    intro st
    show ((stageStep cfg ext i k (stagesFold cfg ext i st k)).1).P_bar_all 0 = _
    rw [stageStep_fst_mat, Function.update_noteq (show (0:ℕ) ≠ k + 1 by omega)]
    exact ih st

lemma iterStart_mat_zero :
    ∀ i : ℕ, (iterStart cfg ext s0 i).P_bar_all 0 = s0.P_bar_all 0 := by
  intro i
  induction i with
  | zero => rfl
  | succ i ih =>
    show (stagesFold cfg ext i (iterStart cfg ext s0 i) cfg.N).P_bar_all 0 = _
    rw [stagesFold_mat_zero]
    exact ih

lemma stateAt_mat_zero (i k : ℕ) :
    (stateAt cfg ext s0 i k).P_bar_all 0 = s0.P_bar_all 0 := by
  unfold stateAt
  rw [stagesFold_mat_zero, iterStart_mat_zero]

end StateLemmas

/-- Claim C1, amended: within a solve() call, at every stage `k ≥ 1` of every
outer iteration `i ≥ 1`, the tightening delta `dP_bar_vec` equals the current
iteration's stage-`k` covariance vector minus the stage-`k` covariance vector
from the end of the immediately preceding outer iteration (and the snapshot in
use is exactly that previous value).  As stated the claim is false at stage 0,
where the snapshot instead holds the stale stage-`N` vector saved two
iterations earlier; see the counterexample. -/
theorem c1_delta_same_stage {K : Type} [CommRing K] {nx nu nw nh : ℕ}
    (cfg : ZoroConfig K nx nu nw nh) (ext : ZoroExt K nx nu nw nh)
    (s0 : ZoroState K nx) (i k : ℕ) (hi : 1 ≤ i) (hk : 1 ≤ k) (hkN : k < cfg.N) :
    ∃ cur prev,
      (stateAt cfg ext s0 i k).P_bar_all_vec k = some cur ∧
      (iterStart cfg ext s0 i).P_bar_all_vec k = some prev ∧
      (traceAt cfg ext s0 i k).snapshot = some prev ∧
      (traceAt cfg ext s0 i k).dP = List.zipWith (fun a b => a - b) cur prev := by
  obtain ⟨k', rfl⟩ : ∃ k2, k = k2 + 1 := ⟨k - 1, by omega⟩
  obtain ⟨i', rfl⟩ : ∃ i2, i = i2 + 1 := ⟨i - 1, by omega⟩
  refine ⟨sym_mat2vec (nextP cfg ext (i' + 1) k' (stateAt cfg ext s0 (i' + 1) k')),
    sym_mat2vec (nextP cfg ext i' k' (stateAt cfg ext s0 i' k')), ?_, ?_, ?_, ?_⟩
  case _ => exact stateAt_vec_written cfg ext s0 (i' + 1) k'
  case _ =>
    rw [iterStart_succ, stateAt_vec_stable cfg ext s0 i' cfg.N (k' + 1) (by omega)]
    exact stateAt_vec_written cfg ext s0 i' k'
  case _ =>
    rw [traceAt_snapshot, stateAt_succ, stageStep_fst_old,
      stateAt_vec_untouched cfg ext s0 (i' + 1) k' (k' + 1) (by omega),
      iterStart_succ, stateAt_vec_stable cfg ext s0 i' cfg.N (k' + 1) (by omega)]
    exact stateAt_vec_written cfg ext s0 i' k'
  case _ =>
    have hold : (stateAt cfg ext s0 (i' + 1) (k' + 1)).P_bar_old_vec
        = some (sym_mat2vec (nextP cfg ext i' k' (stateAt cfg ext s0 i' k'))) := by
      rw [stateAt_succ, stageStep_fst_old,
        stateAt_vec_untouched cfg ext s0 (i' + 1) k' (k' + 1) (by omega),
        iterStart_succ, stateAt_vec_stable cfg ext s0 i' cfg.N (k' + 1) (by omega)]
      exact stateAt_vec_written cfg ext s0 i' k'
    rw [traceAt_dP]
    unfold dPAt
    rw [hold, stateAt_vec_written cfg ext s0 (i' + 1) k']
    rfl

/-- Claim C2, amended: `solve()` does not clear `P_bar_old_vec`; the first
processed stage of a call uses whatever snapshot the object holds, and only on
the state produced by `__init__` (where it is `None`) is the first delta the
zero vector. -/
theorem c2_snapshot_not_cleared {K : Type} [CommRing K] {nx nu nw nh : ℕ}
    (cfg : ZoroConfig K nx nu nw nh) (ext : ZoroExt K nx nu nw nh)
    (s0 : ZoroState K nx) :
    (traceAt cfg ext s0 0 0).snapshot = s0.P_bar_old_vec ∧
      (traceAt cfg ext (initState cfg) 0 0).dP = List.replicate (vecLen nx) 0 :=
  ⟨rfl, rfl⟩

/-- Claim C3 (confirmed): at every stage the recorded augmented model
satisfies `A_total = A_nom + B·mean_dy[:,k,0:nx]`,
`B_total = B_nom + B·mean_dy[:,k,nx:nx+nu]` and
`f_hat = x_nom + B·mean[k] - A_total·x_k - B_total·u_k`; when no residual
model is configured, `mean` and `mean_dy` are identically zero and the model
reduces to the nominal one. -/
theorem c3_stage_model {K : Type} [CommRing K] {nx nu nw nh : ℕ}
    (cfg : ZoroConfig K nx nu nw nh) (ext : ZoroExt K nx nu nw nh)
    (s0 : ZoroState K nx) (i k : ℕ) :
    (traceAt cfg ext s0 i k).A_total
        = ext.A_nom i k + cfg.B * Matrix.of (fun w x => meanDyFull ext i k w x.val) ∧
    (traceAt cfg ext s0 i k).B_total
        = ext.B_nom i k + cfg.B * Matrix.of (fun w u => meanDyFull ext i k w (nx + u.val)) ∧
    (traceAt cfg ext s0 i k).f_hat
        = ext.x_nom i k + cfg.B.mulVec (meanAt ext i k)
          - (traceAt cfg ext s0 i k).A_total.mulVec (ext.x_hat i k)
          - (traceAt cfg ext s0 i k).B_total.mulVec (ext.u_hat i k) ∧
    (ext.hasGp = false →
      meanAt ext i k = 0 ∧ meanDyFull ext i k = (fun _ _ => 0) ∧
      (traceAt cfg ext s0 i k).A_total = ext.A_nom i k ∧
      (traceAt cfg ext s0 i k).B_total = ext.B_nom i k ∧
      (traceAt cfg ext s0 i k).f_hat
        = ext.x_nom i k - (ext.A_nom i k).mulVec (ext.x_hat i k)
          - (ext.B_nom i k).mulVec (ext.u_hat i k)) := by
  refine ⟨rfl, rfl, rfl, fun h => ?_⟩
  have hm : meanAt ext i k = 0 := by simp [meanAt, h]
  have hdy : meanDyFull ext i k = (fun _ _ => 0) := by simp [meanDyFull, h]
  have hA : A_totalAt cfg ext i k = ext.A_nom i k := by
    unfold A_totalAt
    rw [hdy]
    rw [show (Matrix.of fun (w : Fin nw) (x : Fin nx) => (0:K)) = (0 : Matrix (Fin nw) (Fin nx) K) from rfl]
    rw [Matrix.mul_zero, add_zero]
  have hB : B_totalAt cfg ext i k = ext.B_nom i k := by
    unfold B_totalAt
    rw [hdy]
    rw [show (Matrix.of fun (w : Fin nw) (u : Fin nu) => (0:K)) = (0 : Matrix (Fin nw) (Fin nu) K) from rfl]
    rw [Matrix.mul_zero, add_zero]
  have hf : f_hatAt cfg ext i k
      = ext.x_nom i k - (ext.A_nom i k).mulVec (ext.x_hat i k)
        - (ext.B_nom i k).mulVec (ext.u_hat i k) := by
    unfold f_hatAt
    rw [hm, hA, hB, Matrix.mulVec_zero, add_zero]
  exact ⟨hm, hdy, hA, hB, hf⟩

/-- Claim C4 (confirmed): throughout the loop `P_bar_all[0] = Sigma_x0`
(slot 0 is never reassigned), and for every processed stage `k < N` the slot
`k+1` written during stage `k` equals
`P_propagation(P_bar_all[k], A_total, B, Sigma_W + diag(var[k]))`. -/
theorem c4_covariance_invariant {K : Type} [CommRing K] {nx nu nw nh : ℕ}
    (cfg : ZoroConfig K nx nu nw nh) (ext : ZoroExt K nx nu nw nh) (i k : ℕ)
    (hk : k < cfg.N) :
    (stateAt cfg ext (initState cfg) i k).P_bar_all 0 = some cfg.Sigma_x0 ∧
    ∃ Pk, (stateAt cfg ext (initState cfg) i k).P_bar_all k = some Pk ∧
      (stateAt cfg ext (initState cfg) i (k + 1)).P_bar_all (k + 1)
        = some (P_propagation Pk (traceAt cfg ext (initState cfg) i k).A_total cfg.B
            (cfg.Sigma_W + Matrix.diagonal (varAt ext i k))) := by
  have h0 : (stateAt cfg ext (initState cfg) i k).P_bar_all 0 = some cfg.Sigma_x0 := by
    rw [stateAt_mat_zero]
    rfl
  refine ⟨h0, ?_⟩
  rcases Nat.eq_zero_or_pos k with hk0 | hkpos
  · subst hk0
    refine ⟨cfg.Sigma_x0, h0, ?_⟩
    rw [stateAt_mat_written]
    congr 1
    unfold nextP
    rw [h0]
    rfl
  · obtain ⟨k', rfl⟩ : ∃ k2, k = k2 + 1 := ⟨k - 1, by omega⟩
    have hk_some : (stateAt cfg ext (initState cfg) i (k' + 1)).P_bar_all (k' + 1)
        = some (nextP cfg ext i k' (stateAt cfg ext (initState cfg) i k')) :=
      stateAt_mat_written cfg ext (initState cfg) i k'
    refine ⟨_, hk_some, ?_⟩
    rw [stateAt_mat_written]
    congr 1
    unfold nextP
    rw [hk_some]
    rfl

/-- Claim C9 (confirmed): on the very first processed stage of the very
first outer iteration of a call on the freshly constructed object, no
snapshot exists, the delta is the zero vector, the computed tightening term
is zero, and the lower bound written to the solver equals the nominal `lh`
unchanged. -/
theorem c9_first_stage_zero_tightening {K : Type} [CommRing K] {nx nu nw nh : ℕ}
    (cfg : ZoroConfig K nx nu nw nh) (ext : ZoroExt K nx nu nw nh) :
    (traceAt cfg ext (initState cfg) 0 0).snapshot = none ∧
    (traceAt cfg ext (initState cfg) 0 0).dP = List.replicate (vecLen nx) 0 ∧
    (traceAt cfg ext (initState cfg) 0 0).tightening = (fun _ => 0) ∧
    (traceAt cfg ext (initState cfg) 0 0).lh_set = cfg.lh := by
  have htight : (traceAt cfg ext (initState cfg) 0 0).tightening = (fun _ => (0:K)) := by
    funext r
    exact dotFrom_replicate_zero _ (vecLen nx) 0
  refine ⟨rfl, rfl, htight, ?_⟩
  funext r
  show cfg.lh r + (traceAt cfg ext (initState cfg) 0 0).tightening r = cfg.lh r
  rw [htight]
  exact add_zero _

section ControlLemmas

variable {K : Type} [Zero K] [LinearOrder K]
variable (status : ℕ → ℤ) (res : ℕ → K) (tol : K) (times : ℕ → K) (T : K)

lemma solveStep_done_all_zero :
    ∀ (r i : ℕ) (st : ZoroStats K), 1 ≤ i + r →
      (∀ j, i ≤ j → j < i + r → status j = 0) →
      ∃ n st2, solveStep status res tol times T i r st = (st2, SolveOutcome.done n) ∧
        st2.n_iter = n ∧ 1 ≤ n ∧ n ≤ i + r ∧
        ((∀ j, i ≤ j → j < i + r → ¬ res j < tol) → n = i + r) ∧
        (∀ j, i ≤ j → j + 1 < n → ¬ res j < tol) := by
  intro r
  induction r with
  | zero =>
    intro i st h1 _
    refine ⟨i, { st with n_iter := i, timings_total := T }, ?_, rfl, by omega, by omega,
      fun _ => by omega, fun j hj hjn => absurd hjn (by omega)⟩
    simp only [solveStep]
    rw [if_neg (show ¬ i = 0 by omega)]
  | succ r ih =>
    intro i st h1 hs
    have hsi : status i = 0 := hs i le_rfl (by omega)
    by_cases hres : res i < tol
    · refine ⟨i + 1, { accumTimings st i (times i) with n_iter := i + 1, timings_total := T },
        ?_, rfl, by omega, by omega,
        fun hnever => absurd hres (hnever i le_rfl (by omega)),
        fun j hj hjn => absurd hj (by omega)⟩
      simp only [solveStep]
      rw [if_neg (show ¬ status i ≠ 0 by simp [hsi]), if_pos hres]
    · obtain ⟨n, st2, heq, hn, h1n, hnle, hcap, htol⟩ :=
        ih (i + 1) (accumTimings st i (times i)) (by omega)
          (fun j hj hjr => hs j (by omega) (by omega))
      refine ⟨n, st2, ?_, hn, h1n, by omega, fun hnever => ?_, fun j hj hjn => ?_⟩
      · simp only [solveStep]
        rw [if_neg (show ¬ status i ≠ 0 by simp [hsi]), if_neg hres]
        exact heq
      · have := hcap (fun j hj hjr => hnever j (by omega) (by omega))
        omega
      · rcases eq_or_lt_of_le hj with heq2 | hlt
        · rw [← heq2]
          exact hres
        · exact htol j (by omega) hjn

lemma solveStep_raised_charac :
    ∀ (r i0 : ℕ) (st : ZoroStats K) (s : ℤ) (i : ℕ),
      (solveStep status res tol times T i0 r st).2 = SolveOutcome.raised s i →
      i0 ≤ i ∧ i < i0 + r ∧ s = status i ∧ s ≠ 0 ∧
        ∀ j, i0 ≤ j → j < i → status j = 0 ∧ ¬ res j < tol := by
  intro r
  induction r with
  | zero =>
    intro i0 st s i h
    simp only [solveStep] at h
    by_cases h0 : i0 = 0
    · rw [if_pos h0] at h
      simp at h
    · rw [if_neg h0] at h
      simp at h
  | succ r ih =>
    intro i0 st s i h
    by_cases hst : status i0 = 0
    · by_cases hres : res i0 < tol
      · have hstep : (solveStep status res tol times T i0 (r + 1) st).2
            = SolveOutcome.done (i0 + 1) := by
          simp only [solveStep]
          rw [if_neg (show ¬ status i0 ≠ 0 by simp [hst]), if_pos hres]
        rw [hstep] at h
        simp at h
      · have hstep : (solveStep status res tol times T i0 (r + 1) st).2
            = (solveStep status res tol times T (i0 + 1) r
                (accumTimings st i0 (times i0))).2 := by
          simp only [solveStep]
          rw [if_neg (show ¬ status i0 ≠ 0 by simp [hst]), if_neg hres]
        rw [hstep] at h
        obtain ⟨ha, hb, hc, hd, he⟩ := ih (i0 + 1) _ s i h
        refine ⟨by omega, by omega, hc, hd, fun j hj hji => ?_⟩
        rcases eq_or_lt_of_le hj with heq2 | hlt
        · rw [← heq2]
          exact ⟨hst, hres⟩
        · exact he j (by omega) hji
    · have hstep : (solveStep status res tol times T i0 (r + 1) st).2
          = SolveOutcome.raised (status i0) i0 := by
        simp only [solveStep]
        rw [if_pos hst]
      rw [hstep] at h
      injection h with h1 h2
      subst h2
      subst h1
      exact ⟨le_rfl, by omega, rfl, hst, fun j hj hji => absurd hji (by omega)⟩

lemma solveStep_raises_at_first :
    ∀ (r i0 : ℕ) (st : ZoroStats K) (i : ℕ), i0 ≤ i → i < i0 + r → status i ≠ 0 →
      (∀ j, i0 ≤ j → j < i → status j = 0 ∧ ¬ res j < tol) →
      (solveStep status res tol times T i0 r st).2 = SolveOutcome.raised (status i) i := by
  intro r
  induction r with
  | zero =>
    intro i0 st i h1 h2 _ _
    exact absurd h2 (by omega)
  | succ r ih =>
    intro i0 st i hle hlt hsi hprev
    by_cases heq : i = i0
    · subst heq
      simp only [solveStep]
      rw [if_pos hsi]
    · have h0 : status i0 = 0 := (hprev i0 le_rfl (by omega)).1
      have hres : ¬ res i0 < tol := (hprev i0 le_rfl (by omega)).2
      simp only [solveStep]
      rw [if_neg (show ¬ status i0 ≠ 0 by simp [h0]), if_neg hres]
      exact ih (i0 + 1) _ i (by omega) (by omega) hsi (fun j hj hji => hprev j (by omega) hji)

lemma solveStep_raised_stats :
    ∀ (r i0 : ℕ) (st st2 : ZoroStats K) (s : ℤ) (i : ℕ),
      solveStep status res tol times T i0 r st = (st2, SolveOutcome.raised s i) →
      st2.n_iter = st.n_iter ∧ st2.timings_total = st.timings_total := by
  intro r
  induction r with
  | zero =>
    intro i0 st st2 s i h
    simp only [solveStep] at h
    by_cases h0 : i0 = 0
    · rw [if_pos h0] at h
      simp at h
    · rw [if_neg h0] at h
      simp at h
  | succ r ih =>
    intro i0 st st2 s i h
    simp only [solveStep] at h
    by_cases hst : status i0 = 0
    · rw [if_neg (show ¬ status i0 ≠ 0 by simp [hst])] at h
      by_cases hres : res i0 < tol
      · rw [if_pos hres] at h
        simp at h
      · rw [if_neg hres] at h
        exact ih (i0 + 1) (accumTimings st i0 (times i0)) st2 s i h
    · rw [if_pos hst] at h
      simp only [Prod.mk.injEq] at h
      constructor <;> rw [← h.1] <;> rfl

end ControlLemmas

/-- Claim C7, amended: for `n_iter_max ≥ 1`, when every feedback solve
returns status 0 the loop returns normally (`done`) after `n ≤ n_iter_max`
iterations, records `n_iter = n`, has met no tolerance before the last
executed iteration, and returns `n = n_iter_max` when the tolerance is never
met.  As stated the claim is false for `n_iter_max = 0`, where the post-loop
read of the unbound loop variable raises; see the counterexample. -/
theorem c7_cap_normal_return {K : Type} [Zero K] [LinearOrder K] (status : ℕ → ℤ)
    (res : ℕ → K) (tol : K) (times : ℕ → K) (T : K) (M : ℕ) (hM : 1 ≤ M)
    (hs : ∀ i, i < M → status i = 0) :
    ∃ n, (runSolve status res tol times T M).2 = SolveOutcome.done n ∧
      (runSolve status res tol times T M).1.n_iter = n ∧ 1 ≤ n ∧ n ≤ M ∧
      ((∀ i, i < M → ¬ res i < tol) → n = M) ∧
      (∀ j, j + 1 < n → ¬ res j < tol) := by
  obtain ⟨n, st2, heq, hn, h1, hle, hcap, htol⟩ :=
    solveStep_done_all_zero status res tol times T M 0 (init_solve_stats M) (by omega)
      (fun j _ hj => hs j (by omega))
  have hpair : runSolve status res tol times T M = (st2, SolveOutcome.done n) := heq
  refine ⟨n, ?_, ?_, h1, by omega,
    fun h => by
      have := hcap (fun j _ hj => h j (by omega))
      omega,
    fun j hj => htol j (by omega) hj⟩
  · rw [hpair]
  · rw [hpair]
    exact hn

/-- Claim C8, amended: the solver-failure raise occurs exactly at the first
executed iteration whose feedback status is non-zero — any raised outcome
carries that first failing status and its iteration, and conversely a first
failing executed iteration forces the raised outcome immediately (no retry).
As stated ("raises an exception exactly when ...") the claim is false for
`n_iter_max = 0`, where an exception is raised although every status is zero;
see the counterexample. -/
theorem c8_raise_iff_status {K : Type} [Zero K] [LinearOrder K] (status : ℕ → ℤ)
    (res : ℕ → K) (tol : K) (times : ℕ → K) (T : K) (M : ℕ) :
    (∀ (s : ℤ) (i : ℕ), (runSolve status res tol times T M).2 = SolveOutcome.raised s i →
      i < M ∧ s = status i ∧ s ≠ 0 ∧ ∀ j, j < i → status j = 0 ∧ ¬ res j < tol) ∧
    (∀ i, i < M → status i ≠ 0 → (∀ j, j < i → status j = 0 ∧ ¬ res j < tol) →
      (runSolve status res tol times T M).2 = SolveOutcome.raised (status i) i) := by
  constructor
  · intro s i h
    obtain ⟨_, hb, hc, hd, he⟩ :=
      solveStep_raised_charac status res tol times T M 0 (init_solve_stats M) s i h
    exact ⟨by omega, hc, hd, fun j hj => he j (by omega) hj⟩
  · intro i hi hsi hprev
    exact solveStep_raises_at_first status res tol times T M 0 (init_solve_stats M) i
      (by omega) (by omega) hsi (fun j _ hj => hprev j hj)

/-- Claim C10 (confirmed): when solve() ends in the raised outcome, the
post-loop assignments never ran: `n_iter` keeps its reset value 0,
`timings_total` keeps 0, and `get_solve_stats` truncates every per-iteration
timing array to length 0. -/
theorem c10_stats_unfinalized_on_raise {K : Type} [Zero K] [LinearOrder K]
    (status : ℕ → ℤ) (res : ℕ → K) (tol : K) (times : ℕ → K) (T : K) (M : ℕ)
    (s : ℤ) (i : ℕ)
    (h : (runSolve status res tol times T M).2 = SolveOutcome.raised s i) :
    (runSolve status res tol times T M).1.n_iter = 0 ∧
    (runSolve status res tol times T M).1.timings_total = 0 ∧
    ∀ p ∈ (get_solve_stats (runSolve status res tol times T M).1).timings,
      p.2 = ([] : List K) := by
  have hpair : solveStep status res tol times T 0 M (init_solve_stats M)
      = ((runSolve status res tol times T M).1, SolveOutcome.raised s i) := by
    rw [← h]
    exact Prod.mk.eta.symm
  obtain ⟨h1, h2⟩ :=
    solveStep_raised_stats status res tol times T M 0 (init_solve_stats M) _ s i hpair
  refine ⟨h1, h2, ?_⟩
  intro p hp
  unfold get_solve_stats at hp
  simp only [List.mem_map] at hp
  obtain ⟨q, hq, rfl⟩ := hp
  show q.2.take ((runSolve status res tol times T M).1.n_iter) = []
  rw [h1]
  exact List.take_zero q.2

/-- Claim C1, counterexample to the claim as stated: on the concrete scalar
instance, at outer iteration 2, stage 0, a previous-iteration covariance
exists (`some [3]`, the old stage-2 vector), yet the delta in use is `[-2]`
and not the claimed same-stage difference `[1] - [1] = [0]` (the stage-0
vector equals `[1]` at the end of iterations 1 and 2). -/
theorem c1_counterexample :
    (traceAt cfg1 ext1 (initState cfg1) 2 0).snapshot = some [(3:ℤ)] ∧
    (iterStart cfg1 ext1 (initState cfg1) 3).P_bar_all_vec 0 = some [(1:ℤ)] ∧
    (iterStart cfg1 ext1 (initState cfg1) 2).P_bar_all_vec 0 = some [(1:ℤ)] ∧
    (traceAt cfg1 ext1 (initState cfg1) 2 0).dP = [(-2:ℤ)] ∧
    (traceAt cfg1 ext1 (initState cfg1) 2 0).dP
      ≠ List.zipWith (fun a b => a - b) [(1:ℤ)] [(1:ℤ)] := by
  decide

/-- Claim C1, witness: the amended theorem evaluated at iteration 1, stage 1
of the concrete instance (snapshot `[2]`, delta `[2] - [2]`). -/
theorem c1_witness :
    (traceAt cfg1 ext1 (initState cfg1) 1 1).snapshot = some [(2:ℤ)] ∧
    (traceAt cfg1 ext1 (initState cfg1) 1 1).dP
      = List.zipWith (fun a b => a - b) [(2:ℤ)] [(2:ℤ)] := by
  have h := c1_delta_same_stage cfg1 ext1 (initState cfg1) 1 1 (by decide) (by decide)
    (by decide)
  obtain ⟨cur, prev, h1, h2, h3, h4⟩ := h
  have hcur : cur = [(2:ℤ)] := by
    have hval : (stateAt cfg1 ext1 (initState cfg1) 1 1).P_bar_all_vec 1
        = some [(2:ℤ)] := by decide
    exact Option.some.inj (h1.symm.trans hval)
  have hprev : prev = [(2:ℤ)] := by
    have hval : (iterStart cfg1 ext1 (initState cfg1) 1).P_bar_all_vec 1
        = some [(2:ℤ)] := by decide
    exact Option.some.inj (h2.symm.trans hval)
  subst hcur
  subst hprev
  exact ⟨h3, h4⟩

/-- Claim C2, counterexample to the claim as stated: after a first solve()
call that ran two outer iterations on the concrete instance the object still
holds the snapshot `some [3]` (it is not cleared to `None`), and a second
solve() call's first processed stage then uses the delta `[-2]`, not the zero
vector. -/
theorem c2_counterexample :
    (iterStart cfg1 ext1 (initState cfg1) 2).P_bar_old_vec = some [(3:ℤ)] ∧
    (iterStart cfg1 ext1 (initState cfg1) 2).P_bar_old_vec ≠ none ∧
    (traceAt cfg1 ext1 (iterStart cfg1 ext1 (initState cfg1) 2) 0 0).dP = [(-2:ℤ)] ∧
    (traceAt cfg1 ext1 (iterStart cfg1 ext1 (initState cfg1) 2) 0 0).dP
      ≠ List.replicate (vecLen 1) 0 := by
  decide

/-- Claim C3, witness: on the concrete instance without a residual model,
`A_total` equals the nominal Jacobian. -/
theorem c3_witness :
    (traceAt cfg1 ext1 (initState cfg1) 0 0).A_total = ext1.A_nom 0 0 :=
  ((c3_stage_model cfg1 ext1 (initState cfg1) 0 0).2.2.2 rfl).2.2.1

/-- Claim C4, witness: the invariant evaluated at iteration 0, stage 0 of the
concrete instance. -/
theorem c4_witness :
    (stateAt cfg1 ext1 (initState cfg1) 0 0).P_bar_all 0 = some cfg1.Sigma_x0 ∧
    (stateAt cfg1 ext1 (initState cfg1) 0 1).P_bar_all 1
      = some (P_propagation cfg1.Sigma_x0 (traceAt cfg1 ext1 (initState cfg1) 0 0).A_total
          cfg1.B (cfg1.Sigma_W + Matrix.diagonal (varAt ext1 0 0))) := by
  obtain ⟨h0, Pk, hk, hnext⟩ := c4_covariance_invariant cfg1 ext1 0 0 (by decide)
  have hPk : Pk = cfg1.Sigma_x0 := Option.some.inj (hk.symm.trans h0)
  subst hPk
  exact ⟨h0, hnext⟩

/-- Claim C5, witness: the round trip on the symmetric 2 × 2 identity
matrix. -/
theorem c5_witness :
    vec2sym_mat (sym_mat2vec (1 : Matrix (Fin 2) (Fin 2) ℤ)) 2 = 1 :=
  c5_roundtrip 2 1 Matrix.transpose_one

/-- Claim C6, witness: symmetry of the propagated matrix for a concrete
non-symmetric `A` with `P = W = I`. -/
theorem c6_witness :
    (P_propagation (1 : Matrix (Fin 2) (Fin 2) ℤ)
        (Matrix.of fun i j => (i.val : ℤ) + 2 * j.val) (1 : Matrix (Fin 2) (Fin 2) ℤ)
        (1 : Matrix (Fin 2) (Fin 2) ℤ))ᵀ
      = P_propagation (1 : Matrix (Fin 2) (Fin 2) ℤ)
          (Matrix.of fun i j => (i.val : ℤ) + 2 * j.val) (1 : Matrix (Fin 2) (Fin 2) ℤ)
          (1 : Matrix (Fin 2) (Fin 2) ℤ) :=
  (c6_propagation (1 : Matrix (Fin 2) (Fin 2) ℤ)
      (Matrix.of fun i j => (i.val : ℤ) + 2 * j.val) (1 : Matrix (Fin 2) (Fin 2) ℤ)
      (1 : Matrix (Fin 2) (Fin 2) ℤ)).2
    Matrix.transpose_one Matrix.transpose_one

/-- Claim C7, counterexample to the claim as stated: with `n_iter_max = 0`
every feedback solve trivially returns status 0, yet solve() does not return
normally — line 285 reads the loop variable of an empty loop and raises. -/
theorem c7_counterexample :
    (runSolve (fun _ => 0) (fun _ => (1:ℤ)) 0 (fun _ => 0) 0 0).2
        = SolveOutcome.nameError ∧
    SolveOutcome.nameError ≠ SolveOutcome.done 0 := by
  decide

/-- Claim C7, witness: `n_iter_max = 1` with a residual that never meets the
tolerance returns normally with `n_iter = 1`. -/
theorem c7_witness :
    (runSolve (fun _ => 0) (fun _ => (1:ℤ)) 0 (fun _ => 0) 0 1).2
        = SolveOutcome.done 1 ∧
    (runSolve (fun _ => 0) (fun _ => (1:ℤ)) 0 (fun _ => 0) 0 1).1.n_iter = 1 := by
  obtain ⟨n, ho, hn, h1, hle, hcap, _⟩ :=
    c7_cap_normal_return (fun _ => 0) (fun _ => (1:ℤ)) 0 (fun _ => 0) 0 1 (by decide)
      (fun i _ => rfl)
  have hn1 : n = 1 := hcap (fun i _ => by decide)
  subst hn1
  exact ⟨ho, hn⟩

/-- Claim C8, counterexample to the claim as stated: with `n_iter_max = 0`
and every feedback status equal to 0, solve() still ends in an exception (the
unbound-loop-variable error), so "raises an exception exactly when the
feedback solve returns a non-zero status" fails. -/
theorem c8_counterexample :
    (runSolve (fun _ => 0) (fun _ => (5:ℤ)) 1 (fun _ => 0) 0 0).2
        = SolveOutcome.nameError ∧
    SolveOutcome.nameError ≠ SolveOutcome.done 1 := by
  decide

/-- Claim C8, witness: a feedback status of 5 at iteration 0 yields the
raised outcome reporting status 5 and iteration 0. -/
theorem c8_witness :
    (runSolve (fun _ => 5) (fun _ => (1:ℤ)) 0 (fun _ => 0) 0 1).2
      = SolveOutcome.raised 5 0 :=
  (c8_raise_iff_status (fun _ => 5) (fun _ => (1:ℤ)) 0 (fun _ => 0) 0 1).2 0
    (by decide) (by decide) (fun j hj => absurd hj (Nat.not_lt_zero j))

/-- Claim C10, witness: a run that raises at iteration 0 leaves `n_iter = 0`
and `timings_total = 0`. -/
theorem c10_witness :
    (runSolve (fun _ => 4) (fun _ => (1:ℤ)) 1 (fun _ => 0) 0 1).1.n_iter = 0 ∧
    (runSolve (fun _ => 4) (fun _ => (1:ℤ)) 1 (fun _ => 0) 0 1).1.timings_total = 0 := by
  have h := c10_stats_unfinalized_on_raise (fun _ => 4) (fun _ => (1:ℤ)) 1 (fun _ => 0)
    0 1 4 0 (by decide)
  exact ⟨h.1, h.2.1⟩
